import Mathlib

/-
Verification of the tapshark event pipeline (Go package `pkg`):
the decoder loop `RecvEvents` and the correlator loop `ProcessEvents`.

The embedding models the Go code directly:
  - `tapPb.TapEvent` carries a source endpoint, a destination endpoint and a
    discriminated HTTP payload (`RequestInit` / `ResponseInit` / `ResponseEnd`,
    or another payload the switch ignores).  The correlator only reads the
    endpoint strings (via `addr.PublicAddressToString`) and each payload type
    with its stream id, so endpoints are modelled as the strings the correlator
    computes, and the remaining proto fields of each payload are collapsed into
    one opaque `data` field.
  - the Go map `map[streamID]Stream` is modelled as a function
    `streamID → Option Stream`; a Go map holds at most one value per key, and
    so does this representation by construction.
  - the channels are modelled as lists: the event channel as the list of
    events the loop consumes, the `requestCh` output as the list of records
    emitted so far (in emission order), and the `done` signal as a token in
    the consumed input stream, observed at the top of the loop.
-/

namespace Tapshark

/-- The id carried by each HTTP payload (proto `TapEvent_Http_StreamId`). -/
structure HttpStreamId where
  base : Nat
  stream : Nat
  deriving DecidableEq, Repr

/-- Payload of a `RequestInit` event; `data` stands for the remaining proto
fields (method, path, scheme, authority, headers) the correlator never reads. -/
structure RequestInitPayload where
  id : HttpStreamId
  data : String
  deriving DecidableEq, Repr

/-- Payload of a `ResponseInit` event; `data` stands for status and headers. -/
structure ResponseInitPayload where
  id : HttpStreamId
  data : String
  deriving DecidableEq, Repr

/-- Payload of a `ResponseEnd` event; `data` stands for trailers and timings. -/
structure ResponseEndPayload where
  id : HttpStreamId
  data : String
  deriving DecidableEq, Repr

/-- The discriminated payload of `event.GetHttp().GetEvent()`.  The Go switch
has no default case, so any other payload (`other`) falls through untouched. -/
inductive HttpEvent
  | requestInit (r : RequestInitPayload)
  | responseInit (r : ResponseInitPayload)
  | responseEnd (r : ResponseEndPayload)
  | other
  deriving DecidableEq, Repr

/-- A decoded `tapPb.TapEvent`: the source and destination are the strings
`addr.PublicAddressToString` produces from the proto addresses. -/
structure TapEvent where
  source : String
  destination : String
  http : HttpEvent
  deriving DecidableEq, Repr

/-- The accumulator struct `Stream` from the Go source.  The pointer fields
`ReqInit` / `RspInit` / `RspEnd` become options; `TimestampMs` is left at its
zero value by the correlator (the consumer fills it in later). -/
structure Stream where
  event : TapEvent
  reqInit : Option RequestInitPayload
  rspInit : Option ResponseInitPayload
  rspEnd : Option ResponseEndPayload
  timestampMs : Nat
  deriving DecidableEq, Repr

/-- The composite map key `streamID` from the Go source. -/
structure streamID where
  src : String
  dst : String
  stream : Nat
  deriving DecidableEq, Repr

/-- The state owned by the correlator loop: the live map
`outstandingRequests` plus everything sent on `requestCh` so far. -/
structure CorrState where
  outstandingRequests : streamID → Option Stream
  requestCh : List Stream

/-- The `streamID` the correlator computes for an event: source and
destination strings plus the per-payload-type stream number.  `none` for a
payload the switch ignores. -/
def eventId (e : TapEvent) : Option streamID :=
  match e.http with
  | .requestInit r => some ⟨e.source, e.destination, r.id.stream⟩
  | .responseInit r => some ⟨e.source, e.destination, r.id.stream⟩
  | .responseEnd r => some ⟨e.source, e.destination, r.id.stream⟩
  | .other => none

/-- The body of the correlator loop for one event, transcribing the Go
switch: `RequestInit` overwrites the map entry with a fresh accumulator;
`ResponseInit` updates the entry in place when present; `ResponseEnd` sends
the completed record on `requestCh` when the entry is present (note: the Go
code mutates a local copy and never deletes the map entry); a missing entry
is only logged and the event dropped. -/
def step (st : CorrState) (event : TapEvent) : CorrState :=
  match event.http with
  | .requestInit r =>
      let id : streamID := ⟨event.source, event.destination, r.id.stream⟩
      { st with
        outstandingRequests :=
          Function.update st.outstandingRequests id
            (some ⟨event, some r, none, none, 0⟩) }
  | .responseInit r =>
      let id : streamID := ⟨event.source, event.destination, r.id.stream⟩
      match st.outstandingRequests id with
      | some req =>
          { st with
            outstandingRequests :=
              Function.update st.outstandingRequests id
                (some { req with rspInit := some r }) }
      | none => st
  | .responseEnd r =>
      let id : streamID := ⟨event.source, event.destination, r.id.stream⟩
      match st.outstandingRequests id with
      | some req =>
          { st with requestCh := st.requestCh ++ [{ req with rspEnd := some r }] }
      | none => st
  | .other => st

/-- One item consumed by the `select` at the top of the correlator loop:
either the `done` signal or an event from `eventCh`. -/
inductive LoopInput
  | done
  | ev (e : TapEvent)

/-- The correlator loop `ProcessEvents` over a stream of inputs: observing
`done` returns at once; an event is handled by `step` and the loop continues.
An exhausted input list is the still-running loop with nothing consumed yet. -/
def ProcessEvents : CorrState → List LoopInput → CorrState
  | st, [] => st
  | st, LoopInput.done :: _ => st
  | st, LoopInput.ev e :: rest => ProcessEvents (step st e) rest

/-- Processing a list of plain events (no `done` in between). -/
def processList (st : CorrState) (es : List TapEvent) : CorrState :=
  es.foldl step st

/-- The state at loop entry: empty map, nothing emitted. -/
def initState : CorrState :=
  { outstandingRequests := fun _ => none, requestCh := [] }

theorem processList_nil (st : CorrState) : processList st [] = st := rfl

theorem processList_cons (st : CorrState) (e : TapEvent) (es : List TapEvent) :
    processList st (e :: es) = processList (step st e) es := rfl

/-- C1: for a RequestInit, then ResponseInit, then ResponseEnd, all three
sharing one StreamIdentity, the correlator emits exactly one completed record,
and that record carries the payloads of all three events. -/
theorem c1_triple_emits_one_complete_record
    (e1 e2 e3 : TapEvent) (p1 : RequestInitPayload) (p2 : ResponseInitPayload)
    (p3 : ResponseEndPayload) (i : streamID)
    (h1 : e1.http = .requestInit p1) (h2 : e2.http = .responseInit p2)
    (h3 : e3.http = .responseEnd p3)
    (hi1 : eventId e1 = some i) (hi2 : eventId e2 = some i)
    (hi3 : eventId e3 = some i) :
    (processList initState [e1, e2, e3]).requestCh =
      [⟨e1, some p1, some p2, some p3, 0⟩] := by
  simp only [eventId, h1, Option.some.injEq] at hi1
  simp only [eventId, h2, Option.some.injEq] at hi2
  simp only [eventId, h3, Option.some.injEq] at hi3
  subst hi1
  simp only [processList, List.foldl, step, h1, h2, h3, hi2, hi3,
    Function.update_same, initState, List.nil_append]

/-- Witness for C1 at a concrete triple of events. -/
theorem c1_witness :
    (processList initState
        [⟨"s", "d", .requestInit ⟨⟨0, 1⟩, "req"⟩⟩,
         ⟨"s", "d", .responseInit ⟨⟨0, 1⟩, "ri"⟩⟩,
         ⟨"s", "d", .responseEnd ⟨⟨0, 1⟩, "re"⟩⟩]).requestCh =
      [⟨⟨"s", "d", .requestInit ⟨⟨0, 1⟩, "req"⟩⟩,
        some ⟨⟨0, 1⟩, "req"⟩, some ⟨⟨0, 1⟩, "ri"⟩, some ⟨⟨0, 1⟩, "re"⟩, 0⟩] :=
  c1_triple_emits_one_complete_record _ _ _ _ _ _ ⟨"s", "d", 1⟩
    rfl rfl rfl rfl rfl rfl

/-- Sample RequestInit event for concrete runs. -/
def sampleReq (s d : String) (n : Nat) (x : String) : TapEvent :=
  ⟨s, d, .requestInit ⟨⟨0, n⟩, x⟩⟩

/-- Sample ResponseInit event for concrete runs. -/
def sampleRspInit (s d : String) (n : Nat) (x : String) : TapEvent :=
  ⟨s, d, .responseInit ⟨⟨0, n⟩, x⟩⟩

/-- Sample ResponseEnd event for concrete runs. -/
def sampleRspEnd (s d : String) (n : Nat) (x : String) : TapEvent :=
  ⟨s, d, .responseEnd ⟨⟨0, n⟩, x⟩⟩

/-- C2 counterexample: running RequestInit then ResponseEnd for one identity
emits the completed record, yet the identity is still present in the live
set afterward — the claim that the correlator removes the identity at
ResponseEnd is false on this input. -/
theorem c2_counterexample_identity_not_removed :
    (processList initState
        [sampleReq "s" "d" 1 "req", sampleRspEnd "s" "d" 1 "re"]).requestCh =
      [⟨sampleReq "s" "d" 1 "req", some ⟨⟨0, 1⟩, "req"⟩, none, some ⟨⟨0, 1⟩, "re"⟩, 0⟩] ∧
    (processList initState
        [sampleReq "s" "d" 1 "req", sampleRspEnd "s" "d" 1 "re"]).outstandingRequests
        ⟨"s", "d", 1⟩ ≠ none := by
  constructor
  · decide
  · decide

/-- C2 amended: at most one accumulator per identity holds by the map
structure, and on a ResponseEnd for a live identity the correlator emits the
completed record — but the identity is not removed: the whole live set is
left unchanged. -/
theorem c2_amended_end_emits_but_keeps_identity
    (st : CorrState) (e : TapEvent) (r : ResponseEndPayload) (i : streamID)
    (req : Stream)
    (h : e.http = .responseEnd r) (hi : eventId e = some i)
    (hm : st.outstandingRequests i = some req) :
    (step st e).requestCh = st.requestCh ++ [{ req with rspEnd := some r }] ∧
    (step st e).outstandingRequests = st.outstandingRequests := by
  simp only [eventId, h, Option.some.injEq] at hi
  subst hi
  simp [step, h, hm]

/-- Witness for the amended C2 at a concrete state and event. -/
theorem c2_amended_witness :
    (step (processList initState [sampleReq "s" "d" 1 "req"])
        (sampleRspEnd "s" "d" 1 "re")).requestCh =
      (processList initState [sampleReq "s" "d" 1 "req"]).requestCh ++
        [⟨sampleReq "s" "d" 1 "req", some ⟨⟨0, 1⟩, "req"⟩, none, some ⟨⟨0, 1⟩, "re"⟩, 0⟩] ∧
    (step (processList initState [sampleReq "s" "d" 1 "req"])
        (sampleRspEnd "s" "d" 1 "re")).outstandingRequests =
      (processList initState [sampleReq "s" "d" 1 "req"]).outstandingRequests :=
  c2_amended_end_emits_but_keeps_identity
    (processList initState [sampleReq "s" "d" 1 "req"])
    (sampleRspEnd "s" "d" 1 "re") ⟨⟨0, 1⟩, "re"⟩ ⟨"s", "d", 1⟩
    ⟨sampleReq "s" "d" 1 "req", some ⟨⟨0, 1⟩, "req"⟩, none, none, 0⟩
    rfl rfl (by decide)

/-- C9: after a ResponseEnd completes a live identity, that identity remains
in the live set with the same accumulator, and a further ResponseEnd for the
same identity emits an additional completed record instead of being dropped. -/
theorem c9_identity_stays_and_reemits
    (st : CorrState) (e e' : TapEvent) (r r' : ResponseEndPayload)
    (i : streamID) (req : Stream)
    (h : e.http = .responseEnd r) (h' : e'.http = .responseEnd r')
    (hi : eventId e = some i) (hi' : eventId e' = some i)
    (hm : st.outstandingRequests i = some req) :
    (step st e).outstandingRequests i = some req ∧
    (processList st [e, e']).requestCh =
      st.requestCh ++ [{ req with rspEnd := some r }, { req with rspEnd := some r' }] := by
  simp only [eventId, h, Option.some.injEq] at hi
  simp only [eventId, h', Option.some.injEq] at hi'
  subst hi
  constructor
  · simp [step, h, hm]
  · simp [processList, step, h, h', hi', hm]

/-- Witness for C9 at a concrete state with two ResponseEnds. -/
theorem c9_witness :
    (step (processList initState [sampleReq "s" "d" 1 "req"])
        (sampleRspEnd "s" "d" 1 "re1")).outstandingRequests ⟨"s", "d", 1⟩ =
      some ⟨sampleReq "s" "d" 1 "req", some ⟨⟨0, 1⟩, "req"⟩, none, none, 0⟩ ∧
    (processList (processList initState [sampleReq "s" "d" 1 "req"])
        [sampleRspEnd "s" "d" 1 "re1", sampleRspEnd "s" "d" 1 "re2"]).requestCh =
      (processList initState [sampleReq "s" "d" 1 "req"]).requestCh ++
        [⟨sampleReq "s" "d" 1 "req", some ⟨⟨0, 1⟩, "req"⟩, none, some ⟨⟨0, 1⟩, "re1"⟩, 0⟩,
         ⟨sampleReq "s" "d" 1 "req", some ⟨⟨0, 1⟩, "req"⟩, none, some ⟨⟨0, 1⟩, "re2"⟩, 0⟩] :=
  c9_identity_stays_and_reemits
    (processList initState [sampleReq "s" "d" 1 "req"])
    (sampleRspEnd "s" "d" 1 "re1") (sampleRspEnd "s" "d" 1 "re2")
    ⟨⟨0, 1⟩, "re1"⟩ ⟨⟨0, 1⟩, "re2"⟩ ⟨"s", "d", 1⟩
    ⟨sampleReq "s" "d" 1 "req", some ⟨⟨0, 1⟩, "req"⟩, none, none, 0⟩
    rfl rfl rfl rfl (by decide)

/-- C10: a RequestInit followed directly by a ResponseEnd for the same
identity completes: one record is emitted, with the ResponseInit field
absent. -/
theorem c10_completes_without_responseinit
    (e1 e2 : TapEvent) (p : RequestInitPayload) (r : ResponseEndPayload)
    (i : streamID)
    (h1 : e1.http = .requestInit p) (h2 : e2.http = .responseEnd r)
    (hi1 : eventId e1 = some i) (hi2 : eventId e2 = some i) :
    (processList initState [e1, e2]).requestCh = [⟨e1, some p, none, some r, 0⟩] := by
  simp only [eventId, h1, Option.some.injEq] at hi1
  simp only [eventId, h2, Option.some.injEq] at hi2
  subst hi1
  simp only [processList, List.foldl, step, h1, h2, hi2,
    Function.update_same, initState, List.nil_append]

/-- Witness for C10 at a concrete pair of events. -/
theorem c10_witness :
    (processList initState
        [sampleReq "s" "d" 1 "req", sampleRspEnd "s" "d" 1 "re"]).requestCh =
      [⟨sampleReq "s" "d" 1 "req", some ⟨⟨0, 1⟩, "req"⟩, none, some ⟨⟨0, 1⟩, "re"⟩, 0⟩] :=
  c10_completes_without_responseinit _ _ _ _ ⟨"s", "d", 1⟩ rfl rfl rfl rfl

/-- True for the two payload kinds that require a live map entry. -/
def isResponseEvent (e : TapEvent) : Bool :=
  match e.http with
  | .responseInit _ => true
  | .responseEnd _ => true
  | _ => false

theorem step_requestInit (st : CorrState) (e : TapEvent) (r : RequestInitPayload)
    (i : streamID) (h : e.http = .requestInit r) (hi : eventId e = some i) :
    step st e = { st with
      outstandingRequests :=
        Function.update st.outstandingRequests i (some ⟨e, some r, none, none, 0⟩) } := by
  simp only [eventId, h, Option.some.injEq] at hi
  subst hi
  simp [step, h]

theorem step_responseInit_found (st : CorrState) (e : TapEvent)
    (q : ResponseInitPayload) (i : streamID) (req : Stream)
    (h : e.http = .responseInit q) (hi : eventId e = some i)
    (hm : st.outstandingRequests i = some req) :
    step st e = { st with
      outstandingRequests :=
        Function.update st.outstandingRequests i (some { req with rspInit := some q }) } := by
  simp only [eventId, h, Option.some.injEq] at hi
  subst hi
  simp [step, h, hm]

theorem step_responseInit_missing (st : CorrState) (e : TapEvent)
    (q : ResponseInitPayload) (i : streamID)
    (h : e.http = .responseInit q) (hi : eventId e = some i)
    (hm : st.outstandingRequests i = none) :
    step st e = st := by
  simp only [eventId, h, Option.some.injEq] at hi
  subst hi
  simp [step, h, hm]

theorem step_responseEnd_found (st : CorrState) (e : TapEvent)
    (r : ResponseEndPayload) (i : streamID) (req : Stream)
    (h : e.http = .responseEnd r) (hi : eventId e = some i)
    (hm : st.outstandingRequests i = some req) :
    step st e = { st with requestCh := st.requestCh ++ [{ req with rspEnd := some r }] } := by
  simp only [eventId, h, Option.some.injEq] at hi
  subst hi
  simp [step, h, hm]

theorem step_responseEnd_missing (st : CorrState) (e : TapEvent)
    (r : ResponseEndPayload) (i : streamID)
    (h : e.http = .responseEnd r) (hi : eventId e = some i)
    (hm : st.outstandingRequests i = none) :
    step st e = st := by
  simp only [eventId, h, Option.some.injEq] at hi
  subst hi
  simp [step, h, hm]

theorem step_other (st : CorrState) (e : TapEvent) (h : e.http = .other) :
    step st e = st := by
  simp [step, h]

/-- C5: a RequestInit unconditionally overwrites the accumulator for its
identity with a fresh one carrying only the new event and payload (no
ResponseInit, no ResponseEnd), and in a run where a second RequestInit
arrives after a ResponseInit was already attached, the eventually emitted
record carries only fields from the second RequestInit onward — its
ResponseInit field is absent. -/
theorem c5_latest_requestinit_wins :
    (∀ (st : CorrState) (e : TapEvent) (p : RequestInitPayload) (i : streamID),
      e.http = .requestInit p → eventId e = some i →
      (step st e).outstandingRequests i = some ⟨e, some p, none, none, 0⟩) ∧
    (∀ (e1 e2 e3 e4 : TapEvent) (p1 p2 : RequestInitPayload)
       (q : ResponseInitPayload) (r : ResponseEndPayload) (i : streamID),
      e1.http = .requestInit p1 → e2.http = .responseInit q →
      e3.http = .requestInit p2 → e4.http = .responseEnd r →
      eventId e1 = some i → eventId e2 = some i →
      eventId e3 = some i → eventId e4 = some i →
      (processList initState [e1, e2, e3, e4]).requestCh =
        [⟨e3, some p2, none, some r, 0⟩]) := by
  constructor
  · intro st e p i h hi
    simp only [eventId, h, Option.some.injEq] at hi
    subst hi
    simp [step, h]
  · intro e1 e2 e3 e4 p1 p2 q r i h1 h2 h3 h4 hi1 hi2 hi3 hi4
    rw [processList_cons, processList_cons, processList_cons, processList_cons,
      processList_nil]
    rw [step_requestInit initState e1 p1 i h1 hi1]
    rw [step_responseInit_found _ e2 q i ⟨e1, some p1, none, none, 0⟩ h2 hi2 (by simp)]
    rw [step_requestInit _ e3 p2 i h3 hi3]
    rw [step_responseEnd_found _ e4 r i ⟨e3, some p2, none, none, 0⟩ h4 hi4 (by simp)]
    simp [initState]

/-- Witness for C5: the overwrite at a concrete state, and the concrete
four-event run whose record drops the pre-overwrite ResponseInit. -/
theorem c5_witness :
    (step initState (sampleReq "s" "d" 1 "req2")).outstandingRequests ⟨"s", "d", 1⟩ =
      some ⟨sampleReq "s" "d" 1 "req2", some ⟨⟨0, 1⟩, "req2"⟩, none, none, 0⟩ ∧
    (processList initState
        [sampleReq "s" "d" 1 "req1", sampleRspInit "s" "d" 1 "ri1",
         sampleReq "s" "d" 1 "req2", sampleRspEnd "s" "d" 1 "re"]).requestCh =
      [⟨sampleReq "s" "d" 1 "req2", some ⟨⟨0, 1⟩, "req2"⟩, none, some ⟨⟨0, 1⟩, "re"⟩, 0⟩] :=
  ⟨c5_latest_requestinit_wins.1 initState (sampleReq "s" "d" 1 "req2")
      ⟨⟨0, 1⟩, "req2"⟩ ⟨"s", "d", 1⟩ rfl rfl,
   c5_latest_requestinit_wins.2 (sampleReq "s" "d" 1 "req1")
      (sampleRspInit "s" "d" 1 "ri1") (sampleReq "s" "d" 1 "req2")
      (sampleRspEnd "s" "d" 1 "re") ⟨⟨0, 1⟩, "req1"⟩ ⟨⟨0, 1⟩, "req2"⟩
      ⟨⟨0, 1⟩, "ri1"⟩ ⟨⟨0, 1⟩, "re"⟩ ⟨"s", "d", 1⟩
      rfl rfl rfl rfl rfl rfl rfl rfl⟩

/-- C4: a ResponseInit or ResponseEnd whose identity is not in the live set
changes nothing — no emission, the live set is left exactly as it was — and
the loop goes on processing the remaining input as if the event had not
happened. -/
theorem c4_unknown_response_is_dropped
    (st : CorrState) (e : TapEvent) (i : streamID)
    (hr : isResponseEvent e = true)
    (hi : eventId e = some i) (hm : st.outstandingRequests i = none) :
    step st e = st ∧
    ∀ rest, ProcessEvents st (.ev e :: rest) = ProcessEvents st rest := by
  have hstep : step st e = st := by
    cases he : e.http with
    | requestInit r => simp [isResponseEvent, he] at hr
    | responseInit r =>
        simp only [eventId, he, Option.some.injEq] at hi
        subst hi
        simp [step, he, hm]
    | responseEnd r =>
        simp only [eventId, he, Option.some.injEq] at hi
        subst hi
        simp [step, he, hm]
    | other => simp [isResponseEvent, he] at hr
  exact ⟨hstep, fun rest => by simp [ProcessEvents, hstep]⟩

/-- Witness for C4: a ResponseEnd for an identity the empty live set does
not contain. -/
theorem c4_witness :
    step initState (sampleRspEnd "s" "d" 1 "re") = initState ∧
    ∀ rest, ProcessEvents initState (.ev (sampleRspEnd "s" "d" 1 "re") :: rest) =
      ProcessEvents initState rest :=
  c4_unknown_response_is_dropped initState (sampleRspEnd "s" "d" 1 "re")
    ⟨"s", "d", 1⟩ rfl rfl rfl

/-- C8: when the loop observes the done signal it returns the state it has
at that moment: no further input is consumed and nothing more is emitted,
whatever remains buffered after the signal. -/
theorem c8_done_returns_immediately (st : CorrState) (rest : List LoopInput) :
    ProcessEvents st (LoopInput.done :: rest) = st ∧
    (ProcessEvents st (LoopInput.done :: rest)).requestCh = st.requestCh :=
  ⟨rfl, rfl⟩

/-- The record (if any) the correlator sends on `requestCh` while handling
one event: only a ResponseEnd whose identity is live produces one. -/
def emission (st : CorrState) (event : TapEvent) : Option Stream :=
  match event.http with
  | .responseEnd r =>
      match st.outstandingRequests ⟨event.source, event.destination, r.id.stream⟩ with
      | some req => some { req with rspEnd := some r }
      | none => none
  | _ => none

theorem step_requestCh (st : CorrState) (e : TapEvent) :
    (step st e).requestCh = st.requestCh ++ (emission st e).toList := by
  cases he : e.http with
  | requestInit r => simp [step, emission, he]
  | responseInit r =>
      cases hm : st.outstandingRequests ⟨e.source, e.destination, r.id.stream⟩ <;>
        simp [step, emission, he, hm]
  | responseEnd r =>
      cases hm : st.outstandingRequests ⟨e.source, e.destination, r.id.stream⟩ <;>
        simp [step, emission, he, hm]
  | other => simp [step, emission, he]

/-- The records appended to `requestCh` over a whole run, in emission order. -/
def emitted : CorrState → List TapEvent → List Stream
  | _, [] => []
  | st, e :: es => (emission st e).toList ++ emitted (step st e) es

theorem processList_requestCh (es : List TapEvent) : ∀ st : CorrState,
    (processList st es).requestCh = st.requestCh ++ emitted st es := by
  induction es with
  | nil => intro st; simp [processList, emitted]
  | cons e es ih =>
      intro st
      rw [processList_cons, ih, emitted, step_requestCh, List.append_assoc]

/-- The ResponseEnd payloads of an event list, in arrival order. -/
def endsOf (es : List TapEvent) : List ResponseEndPayload :=
  es.filterMap fun e =>
    match e.http with
    | .responseEnd r => some r
    | _ => none

theorem emitted_ends_sublist (es : List TapEvent) : ∀ st : CorrState,
    List.Sublist ((emitted st es).map Stream.rspEnd) ((endsOf es).map some) := by
  induction es with
  | nil => intro st; simp [emitted, endsOf]
  | cons e es ih =>
      intro st
      cases he : e.http with
      | requestInit r =>
          have h1 : endsOf (e :: es) = endsOf es := by simp [endsOf, he]
          have h2 : emission st e = none := by simp [emission, he]
          rw [emitted, h2, h1]
          simpa using ih (step st e)
      | responseInit r =>
          have h1 : endsOf (e :: es) = endsOf es := by simp [endsOf, he]
          have h2 : emission st e = none := by simp [emission, he]
          rw [emitted, h2, h1]
          simpa using ih (step st e)
      | responseEnd r =>
          have h1 : endsOf (e :: es) = r :: endsOf es := by simp [endsOf, he]
          rw [emitted, h1]
          cases hm : st.outstandingRequests ⟨e.source, e.destination, r.id.stream⟩ with
          | some req =>
              have h2 : emission st e = some { req with rspEnd := some r } := by
                simp [emission, he, hm]
              rw [h2]
              simpa using List.Sublist.cons₂ (some r) (ih (step st e))
          | none =>
              have h2 : emission st e = none := by simp [emission, he, hm]
              rw [h2]
              simpa using List.Sublist.cons (some r) (ih (step st e))
      | other =>
          have h1 : endsOf (e :: es) = endsOf es := by simp [endsOf, he]
          have h2 : emission st e = none := by simp [emission, he]
          rw [emitted, h2, h1]
          simpa using ih (step st e)

/-- C3: the records a run appends to `requestCh` are exactly `emitted`, and
their ResponseEnd payloads form an order-preserving subsequence of the
ResponseEnd payloads in arrival order — records are emitted in completion
order.  The closed conjunct shows two exchanges that start in the order A, B
but finish in the order B, A are emitted in finish order B, A. -/
theorem c3_emission_in_completion_order (st : CorrState) (es : List TapEvent) :
    ((processList st es).requestCh = st.requestCh ++ emitted st es ∧
      List.Sublist ((emitted st es).map Stream.rspEnd) ((endsOf es).map some)) ∧
    (processList initState
        [sampleReq "a" "b" 1 "A", sampleReq "a" "b" 2 "B",
         sampleRspEnd "a" "b" 2 "endB", sampleRspEnd "a" "b" 1 "endA"]).requestCh =
      [⟨sampleReq "a" "b" 2 "B", some ⟨⟨0, 2⟩, "B"⟩, none, some ⟨⟨0, 2⟩, "endB"⟩, 0⟩,
       ⟨sampleReq "a" "b" 1 "A", some ⟨⟨0, 1⟩, "A"⟩, none, some ⟨⟨0, 1⟩, "endA"⟩, 0⟩] :=
  ⟨⟨processList_requestCh es st, emitted_ends_sublist es st⟩, by decide⟩

/-- The identity a stored accumulator belongs to: the identity of the
RequestInit event it was created from. -/
def recId (s : Stream) : Option streamID :=
  eventId s.event

/-- The events of one identity, in arrival order. -/
def filterId (i : streamID) (es : List TapEvent) : List TapEvent :=
  es.filter fun e => decide (eventId e = some i)

/-- The emitted records of one identity, in emission order. -/
def filterRec (i : streamID) (l : List Stream) : List Stream :=
  l.filter fun s => decide (recId s = some i)

/-- Every live accumulator is stored under the identity of its own
RequestInit event. -/
def Inv (st : CorrState) : Prop :=
  ∀ i req, st.outstandingRequests i = some req → recId req = some i

theorem Inv_initState : Inv initState := by
  intro i req h
  simp [initState] at h

theorem step_responseEnd_map (st : CorrState) (e : TapEvent)
    (r : ResponseEndPayload) (h : e.http = .responseEnd r) :
    (step st e).outstandingRequests = st.outstandingRequests := by
  cases hm : st.outstandingRequests ⟨e.source, e.destination, r.id.stream⟩ <;>
    simp [step, h, hm]

theorem step_map_noteq (st : CorrState) (e : TapEvent) (j i : streamID)
    (hj : eventId e = some j) (hne : i ≠ j) :
    (step st e).outstandingRequests i = st.outstandingRequests i := by
  cases he : e.http with
  | requestInit r =>
      simp only [eventId, he, Option.some.injEq] at hj
      subst hj
      rw [step_requestInit st e r ⟨e.source, e.destination, r.id.stream⟩ he
        (by simp [eventId, he])]
      simp [Function.update_noteq hne]
  | responseInit q =>
      simp only [eventId, he, Option.some.injEq] at hj
      subst hj
      cases hm : st.outstandingRequests ⟨e.source, e.destination, q.id.stream⟩ with
      | some req =>
          rw [step_responseInit_found st e q _ req he (by simp [eventId, he]) hm]
          simp [Function.update_noteq hne]
      | none =>
          rw [step_responseInit_missing st e q _ he (by simp [eventId, he]) hm]
  | responseEnd r => rw [step_responseEnd_map st e r he]
  | other => rw [step_other st e he]

theorem Inv_step (st : CorrState) (e : TapEvent) (hinv : Inv st) :
    Inv (step st e) := by
  cases he : e.http with
  | requestInit r =>
      rw [step_requestInit st e r ⟨e.source, e.destination, r.id.stream⟩ he
        (by simp [eventId, he])]
      intro i req h
      simp only at h
      rcases eq_or_ne i ⟨e.source, e.destination, r.id.stream⟩ with hik | hik
      · subst hik
        rw [Function.update_same] at h
        cases h
        simp [recId, eventId, he]
      · rw [Function.update_noteq hik] at h
        exact hinv _ _ h
  | responseInit q =>
      cases hm : st.outstandingRequests ⟨e.source, e.destination, q.id.stream⟩ with
      | some req0 =>
          rw [step_responseInit_found st e q _ req0 he (by simp [eventId, he]) hm]
          intro i req h
          simp only at h
          rcases eq_or_ne i ⟨e.source, e.destination, q.id.stream⟩ with hik | hik
          · subst hik
            rw [Function.update_same] at h
            cases h
            have := hinv _ _ hm
            simpa [recId] using this
          · rw [Function.update_noteq hik] at h
            exact hinv _ _ h
      | none =>
          rw [step_responseInit_missing st e q _ he (by simp [eventId, he]) hm]
          exact hinv
  | responseEnd r =>
      intro i req h
      rw [step_responseEnd_map st e r he] at h
      exact hinv _ _ h
  | other =>
      rw [step_other st e he]
      exact hinv

theorem emission_recId (st : CorrState) (e : TapEvent) (rec : Stream)
    (hinv : Inv st) (h : emission st e = some rec) :
    recId rec = eventId e := by
  cases he : e.http with
  | requestInit r => simp [emission, he] at h
  | responseInit q => simp [emission, he] at h
  | responseEnd r =>
      cases hm : st.outstandingRequests ⟨e.source, e.destination, r.id.stream⟩ with
      | some req =>
          simp only [emission, he, hm, Option.some.injEq] at h
          subst h
          have hreq := hinv _ _ hm
          simp only [recId] at hreq
          have hev : ({ req with rspEnd := some r } : Stream).event = req.event := rfl
          have hre : eventId e = some ⟨e.source, e.destination, r.id.stream⟩ := by
            simp [eventId, he]
          simp only [recId, hev, hre, hreq]
      | none => simp [emission, he, hm] at h
  | other => simp [emission, he] at h

theorem step_agree (st t : CorrState) (e : TapEvent) (j : streamID)
    (hj : eventId e = some j)
    (h : st.outstandingRequests j = t.outstandingRequests j) :
    (step st e).outstandingRequests j = (step t e).outstandingRequests j ∧
    emission st e = emission t e := by
  cases he : e.http with
  | requestInit r =>
      simp only [eventId, he, Option.some.injEq] at hj
      subst hj
      constructor
      · rw [step_requestInit st e r ⟨e.source, e.destination, r.id.stream⟩ he
          (by simp [eventId, he]),
          step_requestInit t e r ⟨e.source, e.destination, r.id.stream⟩ he
          (by simp [eventId, he])]
        simp
      · simp [emission, he]
  | responseInit q =>
      simp only [eventId, he, Option.some.injEq] at hj
      subst hj
      constructor
      · cases hm : st.outstandingRequests ⟨e.source, e.destination, q.id.stream⟩ with
        | some req =>
            have hm' : t.outstandingRequests ⟨e.source, e.destination, q.id.stream⟩ =
                some req := by rw [← h]; exact hm
            rw [step_responseInit_found st e q _ req he (by simp [eventId, he]) hm,
              step_responseInit_found t e q _ req he (by simp [eventId, he]) hm']
            simp
        | none =>
            have hm' : t.outstandingRequests ⟨e.source, e.destination, q.id.stream⟩ =
                none := by rw [← h]; exact hm
            rw [step_responseInit_missing st e q _ he (by simp [eventId, he]) hm,
              step_responseInit_missing t e q _ he (by simp [eventId, he]) hm']
            exact h
      · simp [emission, he]
  | responseEnd r =>
      simp only [eventId, he, Option.some.injEq] at hj
      subst hj
      constructor
      · rw [step_responseEnd_map st e r he, step_responseEnd_map t e r he]
        exact h
      · cases hm : st.outstandingRequests ⟨e.source, e.destination, r.id.stream⟩ with
        | some req =>
            have hm' : t.outstandingRequests ⟨e.source, e.destination, r.id.stream⟩ =
                some req := by rw [← h]; exact hm
            simp [emission, he, hm, hm']
        | none =>
            have hm' : t.outstandingRequests ⟨e.source, e.destination, r.id.stream⟩ =
                none := by rw [← h]; exact hm
            simp [emission, he, hm, hm']
  | other =>
      constructor
      · rw [step_other st e he, step_other t e he]
        exact h
      · simp [emission, he]

theorem run_filterId (es : List TapEvent) : ∀ (st t : CorrState) (i : streamID),
    Inv st → Inv t →
    st.outstandingRequests i = t.outstandingRequests i →
    (processList st es).outstandingRequests i =
      (processList t (filterId i es)).outstandingRequests i ∧
    filterRec i (emitted st es) = emitted t (filterId i es) := by
  induction es with
  | nil =>
      intro st t i hs ht hagree
      exact ⟨hagree, rfl⟩
  | cons e es ih =>
      intro st t i hs ht hagree
      by_cases hid : eventId e = some i
      · have hfi : filterId i (e :: es) = e :: filterId i es := by
          simp [filterId, hid]
        obtain ⟨hmap, hemi⟩ := step_agree st t e i hid hagree
        obtain ⟨ihm, ihout⟩ := ih (step st e) (step t e) i (Inv_step st e hs)
          (Inv_step t e ht) hmap
        constructor
        · rw [hfi, processList_cons, processList_cons]
          exact ihm
        · rw [hfi, emitted, emitted, ← hemi]
          simp only [filterRec, List.filter_append]
          have h1 : List.filter (fun s => decide (recId s = some i))
              (emission st e).toList = (emission st e).toList := by
            cases hem : emission st e with
            | none => simp
            | some rec =>
                have hrec := emission_recId st e rec hs hem
                rw [hid] at hrec
                simp [hrec]
          rw [h1]
          simp only [filterRec] at ihout
          rw [ihout]
      · have hfi : filterId i (e :: es) = filterId i es := by
          simp [filterId, hid]
        have hmap : (step st e).outstandingRequests i = st.outstandingRequests i := by
          cases heid : eventId e with
          | none =>
              have hoth : e.http = .other := by
                cases he2 : e.http with
                | requestInit r => simp [eventId, he2] at heid
                | responseInit r => simp [eventId, he2] at heid
                | responseEnd r => simp [eventId, he2] at heid
                | other => rfl
              rw [step_other st e hoth]
          | some j =>
              have hne : i ≠ j := by
                intro hcon
                subst hcon
                exact hid heid
              exact step_map_noteq st e j i heid hne
        obtain ⟨ihm, ihout⟩ := ih (step st e) t i (Inv_step st e hs) ht
          (hmap.trans hagree)
        constructor
        · rw [hfi, processList_cons]
          exact ihm
        · rw [hfi, emitted]
          simp only [filterRec, List.filter_append]
          have h1 : List.filter (fun s => decide (recId s = some i))
              (emission st e).toList = [] := by
            cases hem : emission st e with
            | none => simp
            | some rec =>
                have hrec := emission_recId st e rec hs hem
                simp only [List.filter_cons, Option.toList_some]
                rw [hrec]
                simp [hid]
          rw [h1, List.nil_append]
          simp only [filterRec] at ihout
          exact ihout

/-- An arbitrary fair merge of two event sequences onto one channel. -/
inductive Interleave : List TapEvent → List TapEvent → List TapEvent → Prop
  | nil : Interleave [] [] []
  | consLeft (a : TapEvent) (as bs cs : List TapEvent) :
      Interleave as bs cs → Interleave (a :: as) bs (a :: cs)
  | consRight (b : TapEvent) (as bs cs : List TapEvent) :
      Interleave as bs cs → Interleave as (b :: bs) (b :: cs)

theorem Interleave.swap {as bs cs : List TapEvent} (h : Interleave as bs cs) :
    Interleave bs as cs := by
  induction h with
  | nil => exact .nil
  | consLeft a as bs cs h ih => exact .consRight a bs as cs ih
  | consRight b as bs cs h ih => exact .consLeft b bs as cs ih

theorem interleave_filterId {A B : streamID} (hAB : A ≠ B) :
    ∀ {as bs cs : List TapEvent}, Interleave as bs cs →
    (∀ e ∈ as, eventId e = some A) → (∀ e ∈ bs, eventId e = some B) →
    filterId A cs = as := by
  intro as bs cs h
  induction h with
  | nil => intro _ _; rfl
  | consLeft a as bs cs h ih =>
      intro ha hb
      have haA : eventId a = some A := ha a (List.mem_cons_self a as)
      have h1 : filterId A (a :: cs) = a :: filterId A cs := by
        simp [filterId, haA]
      rw [h1, ih (fun e he => ha e (List.mem_cons_of_mem a he)) hb]
  | consRight b as bs cs h ih =>
      intro ha hb
      have hbB : eventId b = some B := hb b (List.mem_cons_self b bs)
      have hne : ¬ eventId b = some A := by
        rw [hbB]
        simp only [Option.some.injEq]
        exact Ne.symm hAB
      have h1 : filterId A (b :: cs) = filterId A cs := by
        simp [filterId, hne]
      rw [h1, ih ha (fun e he => hb e (List.mem_cons_of_mem b he))]

/-- C6: for two distinct identities A and B and any interleaving of their
event sequences, the records the correlator emits for each identity are
exactly the records it would emit processing that identity alone — the
other identity's events contribute nothing. -/
theorem c6_interleaved_identities_independent
    (A B : streamID) (as bs cs : List TapEvent) (hAB : A ≠ B)
    (ha : ∀ e ∈ as, eventId e = some A) (hb : ∀ e ∈ bs, eventId e = some B)
    (hint : Interleave as bs cs) :
    filterRec A (processList initState cs).requestCh =
      (processList initState as).requestCh ∧
    filterRec B (processList initState cs).requestCh =
      (processList initState bs).requestCh := by
  have hA : filterId A cs = as := interleave_filterId hAB hint ha hb
  have hB : filterId B cs = bs := interleave_filterId (Ne.symm hAB) hint.swap hb ha
  have h1 := run_filterId cs initState initState A Inv_initState Inv_initState rfl
  have h2 := run_filterId cs initState initState B Inv_initState Inv_initState rfl
  rw [hA] at h1
  rw [hB] at h2
  have hinit : initState.requestCh = [] := rfl
  constructor
  · rw [processList_requestCh cs initState, processList_requestCh as initState,
      hinit, List.nil_append, List.nil_append]
    exact h1.2
  · rw [processList_requestCh cs initState, processList_requestCh bs initState,
      hinit, List.nil_append, List.nil_append]
    exact h2.2

/-- Witness for C6: identities 1 and 2 between the same endpoints, with the
four events interleaved request-A, request-B, end-B, end-A. -/
theorem c6_witness :
    filterRec ⟨"a", "b", 1⟩
        (processList initState
          [sampleReq "a" "b" 1 "A", sampleReq "a" "b" 2 "B",
           sampleRspEnd "a" "b" 2 "eB", sampleRspEnd "a" "b" 1 "eA"]).requestCh =
      (processList initState
        [sampleReq "a" "b" 1 "A", sampleRspEnd "a" "b" 1 "eA"]).requestCh ∧
    filterRec ⟨"a", "b", 2⟩
        (processList initState
          [sampleReq "a" "b" 1 "A", sampleReq "a" "b" 2 "B",
           sampleRspEnd "a" "b" 2 "eB", sampleRspEnd "a" "b" 1 "eA"]).requestCh =
      (processList initState
        [sampleReq "a" "b" 2 "B", sampleRspEnd "a" "b" 2 "eB"]).requestCh :=
  c6_interleaved_identities_independent ⟨"a", "b", 1⟩ ⟨"a", "b", 2⟩
    [sampleReq "a" "b" 1 "A", sampleRspEnd "a" "b" 1 "eA"]
    [sampleReq "a" "b" 2 "B", sampleRspEnd "a" "b" 2 "eB"]
    [sampleReq "a" "b" 1 "A", sampleReq "a" "b" 2 "B",
     sampleRspEnd "a" "b" 2 "eB", sampleRspEnd "a" "b" 1 "eA"]
    (by decide) (by decide) (by decide)
    (.consLeft _ _ _ _ (.consRight _ _ _ _ (.consRight _ _ _ _
      (.consLeft _ _ _ _ .nil))))

/-- The sentinel message of the known benign decode error
(`pkg.ErrClosedResponseBody` from the linkerd tap package, external to this
repository); the decoder only compares suffixes against it. -/
def ErrClosedResponseBody : String := "http: read on closed response body"

/-- `strings.HasSuffix s pat`, computed on the character lists. -/
def strHasSuffix (s pat : String) : Bool :=
  pat.data.isSuffixOf s.data

/-- One attempt of `protohttp.FromByteStreamToProtocolBuffers`: a decoded
event, end of stream (`io.EOF`), or a decode error with its message. -/
inductive ReadResult
  | ok (e : TapEvent)
  | eof
  | fail (msg : String)

/-- What the decoder loop has done when it returns: the events published to
`eventCh` in order, the lines printed, and the number of notifications sent
on the `closing` channel. -/
structure RecvResult where
  published : List TapEvent
  printed : List String
  closingCount : Nat
  deriving DecidableEq, Repr

/-- The decoder loop `RecvEvents` over the outcomes of successive decode
attempts.  A decoded event is published and the loop continues.  The first
non-ok outcome ends the loop: `io.EOF` prints the normal termination notice;
any other error prints its message unless it ends in
`ErrClosedResponseBody`; in every terminal case one notification goes to
`closing`.  `none` when the attempt list runs out with the loop still
running. -/
def RecvEvents : List ReadResult → Option RecvResult
  | [] => none
  | .ok e :: rs =>
      match RecvEvents rs with
      | some res => some { res with published := e :: res.published }
      | none => none
  | .eof :: _ => some ⟨[], ["Tap stream terminated"], 1⟩
  | .fail msg :: _ =>
      some ⟨[], if strHasSuffix msg ErrClosedResponseBody then [] else [msg], 1⟩

theorem RecvEvents_all_ok (es : List TapEvent) :
    RecvEvents (es.map ReadResult.ok) = none := by
  induction es with
  | nil => rfl
  | cons e es ih =>
      simp only [List.map_cons, RecvEvents]
      rw [ih]

theorem RecvEvents_closing (rs : List ReadResult) :
    ∀ res, RecvEvents rs = some res → res.closingCount = 1 := by
  induction rs with
  | nil => intro res h; cases h
  | cons r rs ih =>
      intro res h
      cases r with
      | ok e =>
          simp only [RecvEvents] at h
          cases hr : RecvEvents rs with
          | some res0 =>
              rw [hr] at h
              cases h
              exact ih res0 hr
          | none => rw [hr] at h; cases h
      | eof =>
          simp only [RecvEvents, Option.some.injEq] at h
          subst h
          rfl
      | fail msg =>
          simp only [RecvEvents, Option.some.injEq] at h
          subst h
          rfl

theorem RecvEvents_ok_prefix (es : List TapEvent) :
    ∀ (t : List ReadResult) (res : RecvResult), RecvEvents t = some res →
    RecvEvents (es.map ReadResult.ok ++ t) =
      some { res with published := es ++ res.published } := by
  induction es with
  | nil =>
      intro t res h
      simpa using h
  | cons e es ih =>
      intro t res h
      simp only [List.map_cons, List.cons_append, RecvEvents, List.append_eq]
      rw [ih t res h]

/-- C7: the decoder loop never terminates on successfully decoded events
(they are all published in order); every terminal case sends exactly one
closing notification; end-of-stream reports the normal termination notice;
an error whose message ends in the known closed-body condition terminates
without reporting; any other error is reported. -/
theorem c7_decoder_termination_and_reporting
    (es : List TapEvent) (msg : String) (rest : List ReadResult) :
    RecvEvents (es.map ReadResult.ok) = none ∧
    (∀ (rs : List ReadResult) (res : RecvResult),
      RecvEvents rs = some res → res.closingCount = 1) ∧
    RecvEvents (es.map ReadResult.ok ++ ReadResult.eof :: rest) =
      some ⟨es, ["Tap stream terminated"], 1⟩ ∧
    (strHasSuffix msg ErrClosedResponseBody = true →
      RecvEvents (es.map ReadResult.ok ++ ReadResult.fail msg :: rest) =
        some ⟨es, [], 1⟩) ∧
    (strHasSuffix msg ErrClosedResponseBody = false →
      RecvEvents (es.map ReadResult.ok ++ ReadResult.fail msg :: rest) =
        some ⟨es, [msg], 1⟩) := by
  refine ⟨RecvEvents_all_ok es, RecvEvents_closing, ?_, ?_, ?_⟩
  · have h := RecvEvents_ok_prefix es (ReadResult.eof :: rest)
      ⟨[], ["Tap stream terminated"], 1⟩ rfl
    simpa using h
  · intro hsuf
    have hbase : RecvEvents (ReadResult.fail msg :: rest) = some ⟨[], [], 1⟩ := by
      simp [RecvEvents, hsuf]
    have h := RecvEvents_ok_prefix es (ReadResult.fail msg :: rest) ⟨[], [], 1⟩ hbase
    simpa using h
  · intro hsuf
    have hbase : RecvEvents (ReadResult.fail msg :: rest) = some ⟨[], [msg], 1⟩ := by
      simp [RecvEvents, hsuf]
    have h := RecvEvents_ok_prefix es (ReadResult.fail msg :: rest) ⟨[], [msg], 1⟩ hbase
    simpa using h

/-- Witness for C7: a one-event stream ending in EOF, a lone benign
closed-body error, and a lone reportable error. -/
theorem c7_witness :
    RecvEvents ([sampleReq "s" "d" 1 "req"].map ReadResult.ok ++
        ReadResult.eof :: []) =
      some ⟨[sampleReq "s" "d" 1 "req"], ["Tap stream terminated"], 1⟩ ∧
    RecvEvents (([] : List TapEvent).map ReadResult.ok ++
        ReadResult.fail ErrClosedResponseBody :: []) =
      some ⟨[], [], 1⟩ ∧
    RecvEvents (([] : List TapEvent).map ReadResult.ok ++
        ReadResult.fail "boom" :: []) =
      some ⟨[], ["boom"], 1⟩ :=
  ⟨(c7_decoder_termination_and_reporting [sampleReq "s" "d" 1 "req"] "x" []).2.2.1,
   (c7_decoder_termination_and_reporting [] ErrClosedResponseBody []).2.2.2.1
     (by decide),
   (c7_decoder_termination_and_reporting [] "boom" []).2.2.2.2 (by decide)⟩

end Tapshark
